import Mathlib

/-!
Verification of the erasure-coding (EC) engine of the aistore repository.

This file shallowly embeds the parts of the Go source that the checked
properties are about:

* `ec/getjogger.go`  — the per-mountpath GET jogger: metadata gathering
  (`requestMeta`), restore dispatch (`restore`), slice requesting
  (`requestSlices`).
* `ec/putjogger.go`  — the per-mountpath PUT jogger: the fairness run loop
  (`run`), preflight and metadata-first ordering (`encode`), slice readers
  (`initializeSlices`), slice distribution (`sendSlices`).
* the EC responder (`XactRespond`): deletion (`removeObjAndMeta`,
  `DispatchReq`) and inbound PUT handling (`DispatchResp`).

Pure data is translated to plain Lean data; stateful code is translated to
explicit state/trace passing; effectful sub-calls that do not decide a
property are passed in as explicit arguments, so a theorem quantifying over
them states that the embedded control flow is independent of them.
Go `int64` values are modelled as `Int`; sizes coming from `os.Stat` and
object metadata are accompanied by nonnegativity hypotheses where needed.
-/

namespace AIStoreEC

/-- EC metadata sidecar (struct `Metadata` of package `ec`; the struct
declaration itself is outside the provided sources, its fields are taken
from their uses in `getjogger.go`, `putjogger.go` and the responder:
`Size`, `Data`, `Parity`, `IsCopy`, `ObjCksum`, `CksumType`, `CksumValue`,
`SliceID`, `ObjVersion`). -/
structure Metadata where
  size : Int
  data : Nat
  parity : Nat
  isCopy : Bool
  objCksum : String
  cksumType : String
  cksumValue : String
  sliceID : Int
  objVersion : String
  deriving Repr, DecidableEq

/-- A default metadata value (zero value of the Go struct). -/
def Metadata.zero : Metadata :=
  { size := 0, data := 0, parity := 0, isCopy := false, objCksum := ""
    cksumType := "", cksumValue := "", sliceID := 0, objVersion := "" }

instance : Inhabited Metadata := ⟨Metadata.zero⟩

/-! ## `getJogger.requestMeta` — majority tally of `ObjCksum` (claim C1)

`requestMeta` broadcasts a metadata request; each response is recorded under
the id of the responding node, and on arrival the frequency table `chk` of
`md.ObjCksum` is updated:

    cnt := chk[md.ObjCksum] + 1
    chk[md.ObjCksum] = cnt
    if cnt > chkMax then chkMax, chkVal := cnt, md.ObjCksum

Afterwards the surviving node set keeps exactly the responders whose
`ObjCksum` equals `chkVal`.  The mutex serializes the updates, so the tally
is a left fold over the arrival order of the responses. -/

/-- Running state of the tally in `requestMeta`: the frequency map `chk`,
the current majority value `chkVal` and its count `chkMax`. -/
structure TallyState where
  chk : String → Nat
  chkVal : String
  chkMax : Nat

/-- One arrival step of the tally in `requestMeta` (getjogger.go:896-902). -/
def tallyStep (s : TallyState) (ck : String) : TallyState :=
  let cnt := s.chk ck + 1
  let chk := fun v => if v = ck then cnt else s.chk v
  if cnt > s.chkMax then ⟨chk, ck, cnt⟩ else ⟨chk, s.chkVal, s.chkMax⟩

/-- Initial tally state (`chk` empty, `chkVal` the zero string, `chkMax` 0). -/
def tallyInit : TallyState := ⟨fun _ => 0, "", 0⟩

/-- A metadata response: responding node id paired with its metadata. -/
abbrev MetaResp := String × Metadata

/-- The tally over the full arrival-ordered response list. -/
def requestMetaTally (responses : List MetaResp) : TallyState :=
  responses.foldl (fun s r => tallyStep s r.2.objCksum) tallyInit

/-- The surviving node set built by `requestMeta` (getjogger.go:914-923):
exactly the responders whose `ObjCksum` equals the tallied `chkVal`. -/
def requestMetaNodes (responses : List MetaResp) : List MetaResp :=
  let s := requestMetaTally responses
  responses.filter (fun r => r.2.objCksum = s.chkVal)

/-- Frequency of the checksum value `v` among the responses. -/
def cksumCount (responses : List MetaResp) (v : String) : Nat :=
  (responses.filter (fun r => r.2.objCksum = v)).length

/-- The invariant that the tally of `requestMeta` maintains over the processed
prefix of the responses: `chk` is the frequency table, `chkMax` bounds every
frequency, `chkVal` attains it, and no value reaches `chkMax` on a prefix
before `chkVal` does. -/
def TallyInv (processed : List MetaResp) (s : TallyState) : Prop :=
  (∀ v, s.chk v = cksumCount processed v)
  ∧ (∀ v, cksumCount processed v ≤ s.chkMax)
  ∧ cksumCount processed s.chkVal = s.chkMax
  ∧ (∀ n v, cksumCount (processed.take n) v = s.chkMax →
      cksumCount (processed.take n) s.chkVal = s.chkMax)

/-- Four concrete responses with checksums `"a", "b", "b", "a"`: the value
`"b"` is the first to reach the final maximal count 2 and wins the tally. -/
def sampleResponses : List MetaResp :=
  [("n1", { Metadata.zero with objCksum := "a" }),
   ("n2", { Metadata.zero with objCksum := "b" }),
   ("n3", { Metadata.zero with objCksum := "b" }),
   ("n4", { Metadata.zero with objCksum := "a" })]


/-! ## `getJogger.restore` — dispatch and the insufficient-slices gate (claim C2)

`restore` (getjogger.go:833-862) checks that EC is enabled, gathers metadata
via `requestMeta`, dispatches to the replicated path when the authoritative
metadata has `IsCopy`, and otherwise fails before doing anything else when
fewer than `meta.Data` nodes survived the majority filter.  The effectful
sub-calls (`restoreReplicatedFromDisk`, `restoreReplicatedFromMemory`,
`restoreEncoded`) are passed in as explicit runs, each a result paired with
the list of local effects it performs; the theorems quantify over them. -/

/-- Error kinds of the restore path.  `insufficientSlices` carries the two
numbers that getjogger.go:857-858 feeds to its format string, in source
order (the source passes `meta.Data` for the `found` slot and `len(nodes)`
for the `need` slot). -/
inductive RestoreErr where
  | ecDisabled
  | noMetafile
  | insufficientSlices (foundArg : Nat) (needArg : Nat)
  | sub (tag : String)
  deriving Repr, DecidableEq

/-- Local effects a restore may perform (slice request broadcast, writer
registration, replica/metafile writes, peer repair sends). -/
inductive RestoreEffect where
  | requestSlice (node : String)
  | regWriter (uname : String)
  | writeReplica
  | writeMetafile
  | sendToPeer (node : String)
  deriving Repr, DecidableEq

/-- The outcome of an effectful restore sub-call: its result and the local
effects it performed. -/
abbrev RestoreRun := Except RestoreErr Unit × List RestoreEffect

/-- `getJogger.restore` (getjogger.go:833-862): the embedded control flow.
`metaRes` is the outcome of `requestMeta`; the three runs stand for
`restoreReplicatedFromDisk`, `restoreReplicatedFromMemory` and
`restoreEncoded`. -/
def restore (ecEnabled : Bool) (metaRes : Except RestoreErr (Metadata × List MetaResp))
    (toDisk : Bool) (replicatedDiskRun replicatedMemRun encodedRun : RestoreRun) :
    RestoreRun :=
  if ecEnabled = false then (Except.error RestoreErr.ecDisabled, [])
  else
    match metaRes with
    | Except.error e => (Except.error e, [])
    | Except.ok (meta, nodes) =>
      if meta.isCopy then
        (if toDisk then replicatedDiskRun else replicatedMemRun)
      else if nodes.length < meta.data then
        (Except.error (RestoreErr.insufficientSlices meta.data nodes.length), [])
      else encodedRun

/-! ## `getJogger.requestSlices` — skipping invalid slice ids (claim C9)

`requestSlices` (getjogger.go:333-409) iterates the surviving node map; a
node whose metadata carries `SliceID < 1` or `SliceID > data+parity` is
skipped with a warning — no writer is created, nothing is registered.  For
a valid node, the writer is stored at index `SliceID-1` of the slice array,
the node is recorded in `idToNode`, and it is appended to the request list
when `regWriter` accepted the writer.  (The disk-mode `CreateFile` error
path aborts the whole request before any further iteration; it does not
affect which responders are skipped and is not modelled here.) -/

/-- The accumulating state of the `requestSlices` loop: the slice array
(entry `i` records the node whose writer will fill slice `i+1`), the
`SliceID -> DaemonID` map in insertion order, and the daemons to request. -/
structure SliceReqState where
  slices : List (Option String)
  idToNode : List (Int × String)
  daemons : List String
  deriving Repr, DecidableEq

/-- One iteration of the `requestSlices` loop for the response `resp`
(getjogger.go:342-382).  `regOk` is the result of `regWriter` per node. -/
def requestSlicesStep (sliceCnt : Nat) (regOk : String → Bool)
    (st : SliceReqState) (resp : MetaResp) : SliceReqState :=
  let k := resp.1
  let v := resp.2
  if v.sliceID < 1 ∨ v.sliceID > (sliceCnt : Int) then st
  else
    { slices := st.slices.set (v.sliceID - 1).toNat (some k)
      idToNode := st.idToNode ++ [(v.sliceID, k)]
      daemons := if regOk k then st.daemons ++ [k] else st.daemons }

/-- The whole `requestSlices` loop over the node map (arrival order), with
`sliceCnt = meta.Data + meta.Parity` slots all initially empty. -/
def requestSlicesFold (sliceCnt : Nat) (regOk : String → Bool)
    (nodes : List MetaResp) : SliceReqState :=
  nodes.foldl (requestSlicesStep sliceCnt regOk)
    ⟨List.replicate sliceCnt none, [], []⟩

/-- The source guard of getjogger.go:343 as a Boolean: the response is kept
iff its slice id lies in `1..sliceCnt`. -/
def validSliceResp (sliceCnt : Nat) (resp : MetaResp) : Bool :=
  !(resp.2.sliceID < 1 ∨ resp.2.sliceID > (sliceCnt : Int) : Bool)

/-! ## `putJogger.encode` — preflight and metadata-first order (claims C3, C6)

`encode` (putjogger.go:166-225) computes the number of targets required
(`ParitySlices + 1`, plus `DataSlices` when not replicating), fails when the
cluster map holds fewer targets, then writes the local metadata sidecar of
the main replica, and only then dispatches copies (`createCopies`) or
slices (`sendSlices`); a dispatch error triggers `cleanup`. -/

/-- Error kinds of the encode path.  `insufficientTargets` carries the
required and found counts of putjogger.go:194-196. -/
inductive PutErr where
  | insufficientTargets (required : Nat) (found : Nat)
  | metaWriteFailed
  | sub (tag : String)
  deriving Repr, DecidableEq

/-- Effects of the encode path: the metadata sidecar write, peer sends, and
the failure-path cleanup. -/
inductive PutEffect where
  | writeMetafile
  | sendReplica (target : String)
  | sendSlice (target : String) (sliceID : Nat)
  | cleanupLocal
  deriving Repr, DecidableEq

/-- Is the effect a dispatch of bytes (a replica copy or a slice) to a peer? -/
def PutEffect.isSend : PutEffect → Bool
  | PutEffect.sendReplica _ => true
  | PutEffect.sendSlice _ _ => true
  | _ => false

/-- The outcome of an effectful encode sub-call. -/
abbrev PutRun := Except PutErr Unit × List PutEffect

/-- `putJogger.encode` (putjogger.go:166-225): the embedded control flow.
`targetCnt` is `len(smap.Tmap)`; `metaWriteOk` is the outcome of the
`ctMeta.Write` of the main-replica sidecar; `copiesRun` and `slicesRun`
stand for `createCopies` and `sendSlices`. -/
def encode (isCopy : Bool) (dataSlices paritySlices targetCnt : Nat)
    (metaWriteOk : Bool) (copiesRun slicesRun : PutRun) : PutRun :=
  let reqTargets := paritySlices + 1 + (if isCopy then 0 else dataSlices)
  if targetCnt < reqTargets then
    (Except.error (PutErr.insufficientTargets reqTargets targetCnt), [])
  else if metaWriteOk = false then
    (Except.error PutErr.metaWriteFailed, [])
  else if isCopy then
    match copiesRun with
    | (Except.error e, tr) =>
      (Except.error e, PutEffect.writeMetafile :: tr ++ [PutEffect.cleanupLocal])
    | (Except.ok _, tr) => (Except.ok (), PutEffect.writeMetafile :: tr)
  else
    match slicesRun with
    | (Except.error e, tr) =>
      (Except.error e, PutEffect.writeMetafile :: tr ++ [PutEffect.cleanupLocal])
    | (Except.ok _, tr) => (Except.ok (), PutEffect.writeMetafile :: tr)

/-! ## `putJogger.sendSlices` — slice placement and cloned metadata (claim C4)

`sendSlices` (putjogger.go:483-617) obtains the placement list
`targets = HrwTargetList(uname, smap, data+parity+1)`, builds the slices,
and for `i` in `0..sliceCnt-1` (with `sliceCnt = min(data+parity,
len(targets)-1)`) sends slice `i+1` to `targets[i+1]` with a cloned
metadata whose `SliceID` is `i+1`, `ObjVersion` is the object version, and
whose `CksumType`/`CksumValue` are the per-slice checksum when one was
computed (putjogger.go:564-570).  The main replica stays local. -/

/-- One transport send performed by `sendSlices`: destination target, the
cloned metadata of the send, and the `isSlice` marker of the data source. -/
structure SendRec where
  target : String
  md : Metadata
  isSlice : Bool
  deriving Repr, DecidableEq

instance : Inhabited SendRec := ⟨⟨"", Metadata.zero, false⟩⟩

/-- The list of sends of `sendSlices` in loop order (putjogger.go:520-602).
`sliceCksum i` is the checksum pair of `slices[i]` when one was computed
(`none` models a nil `slices[i].cksum`). -/
def sendSlicesSends (meta : Metadata) (dataSlices paritySlices : Nat)
    (targets : List String) (version : String)
    (sliceCksum : Nat → Option (String × String)) : List SendRec :=
  let totalCnt := paritySlices + dataSlices
  let sliceCnt := min totalCnt (targets.length - 1)
  (List.range sliceCnt).map (fun (i : Nat) =>
    let mcopy := { meta with sliceID := (i : Int) + 1, objVersion := version }
    let mcopy :=
      if (i : Int) + 1 ≠ 0 then
        match sliceCksum i with
        | some ct => { mcopy with cksumType := ct.1, cksumValue := ct.2 }
        | none => mcopy
      else mcopy
    { target := targets.getD (i + 1) "", md := mcopy, isSlice := true })

/-! ## `initializeSlices` — data-slice section readers (claim C5)

`initializeSlices` (putjogger.go:347-402) opens the replica file and builds
one section reader per data slice: at iteration `i` the remaining size is
`fileSize - i*sliceSize`; when it is below `sliceSize` the reader is a
section of the remaining bytes padded with `padSize` zeros, otherwise a
full `sliceSize` section with no padding. -/

/-- Modelled from the spec: `SliceSize(fileSize, slices)` — the per-slice
byte count `⌈fileSize/slices⌉` (the function is declared outside the
provided sources; the spec fixes `slice_size = ⌈size/data⌉`). -/
def SliceSize (fileSize : Int) (slices : Nat) : Int :=
  ((fileSize.toNat + slices - 1) / slices : Nat)

/-- The three arguments of a `cmn.NewSectionHandle(fh, offset, size, pad)`
call. -/
structure SectionSpec where
  offset : Int
  size : Int
  pad : Int
  deriving Repr, DecidableEq

instance : Inhabited SectionSpec := ⟨⟨0, 0, 0⟩⟩

/-- Modelled from the spec: the byte sequence yielded by a section handle
(`cmn.NewSectionHandle` is declared outside the provided sources) — the
file bytes in `[offset, offset+size)`, truncated at end of file and empty
when `size ≤ 0`, followed by `pad` zero bytes. -/
def sectionBytes (content : List Nat) (sec : SectionSpec) : List Nat :=
  (content.drop sec.offset.toNat).take sec.size.toNat
    ++ List.replicate sec.pad.toNat 0

/-- The section handle built for data slice `i` (putjogger.go:379-385),
with `sizeLeft = fileSize - i*sliceSize`. -/
def dataReaderSpec (fileSize sliceSize padSize : Int) (i : Nat) : SectionSpec :=
  if fileSize - i * sliceSize < sliceSize then
    ⟨i * sliceSize, fileSize - i * sliceSize, padSize⟩
  else
    ⟨i * sliceSize, sliceSize, 0⟩

/-- The data-slice readers of `initializeSlices` (putjogger.go:366-390),
with `padSize = sliceSize*dataSlices - fileSize`. -/
def initializeReaders (fileSize : Int) (dataSlices : Nat) : List SectionSpec :=
  let sliceSize := SliceSize fileSize dataSlices
  let padSize := sliceSize * dataSlices - fileSize
  (List.range dataSlices).map (dataReaderSpec fileSize sliceSize padSize)

/-! ## `putJogger.run` — two-priority fairness (claim C7)

The run loop (putjogger.go:91-124) first drains the high-priority `putCh`,
counting `putsDone`; once `putsDone` reaches `putBatchSize` (or `putCh` is
empty, or always after a stop signal) it falls through to the second,
fair select where `xactCh` is eligible.  An execution is driven by two
oracle streams: the outcomes of the first (biased) select and of the
second (fair) select. -/

/-- putjogger.go:28 — `putBatchSize = 8`. -/
def putBatchSize : Nat := 8

/-- Outcome of the first select of the loop body: a request on `putCh`,
a stop signal, or the `default` branch (nothing pending). -/
inductive Sel1 where
  | put
  | stop
  | idle
  deriving Repr, DecidableEq

/-- Outcome of the second (fair) select: a request on `putCh`, a request
on `xactCh`, or a stop signal. -/
inductive Sel2 where
  | put
  | xact
  | stop
  deriving Repr, DecidableEq

/-- Observable events of one execution of the run loop: a PUT processed
from the biased select, reaching the fair select (where `xactCh` is
eligible), and a PUT or an ec-encode request processed from the fair
select. -/
inductive JogEv where
  | liveHigh
  | fairSel
  | liveFair
  | bgFair
  deriving Repr, DecidableEq

/-- The run loop of `putJogger.run` as a trace function over the two
oracle streams.  `fair` is true when control is at the second select;
`putsDone` is the counter of putjogger.go:94-112.  An exhausted oracle
stream models the worker blocking. -/
def runLoop (putsDone : Nat) (fair : Bool) (s1 : List Sel1) (s2 : List Sel2) :
    List JogEv :=
  match fair, s1, s2 with
  | false, [], _ => []
  | false, Sel1.put :: t1, s2 =>
    if putsDone + 1 < putBatchSize then
      JogEv.liveHigh :: runLoop (putsDone + 1) false t1 s2
    else
      JogEv.liveHigh :: runLoop 0 true t1 s2
  | false, Sel1.stop :: _, _ => []
  | false, Sel1.idle :: t1, s2 => runLoop 0 true t1 s2
  | true, _, [] => [JogEv.fairSel]
  | true, s1, Sel2.put :: t2 => JogEv.fairSel :: JogEv.liveFair :: runLoop 0 false s1 t2
  | true, s1, Sel2.xact :: t2 => JogEv.fairSel :: JogEv.bgFair :: runLoop 0 false s1 t2
  | true, _, Sel2.stop :: _ => [JogEv.fairSel]
termination_by (s1.length, s2.length)

/-- True when the trace is finished or its next event is the fair select. -/
def nextFairOrEnd : List JogEv → Bool
  | [] => true
  | JogEv.fairSel :: _ => true
  | _ => false

/-- Checks along a trace that no more than `putBatchSize` high-priority PUT
events occur in a row (`k` counts the current run), and that a run that
reaches `putBatchSize` is immediately followed by the fair select. -/
def hiRunOk (k : Nat) : List JogEv → Bool
  | [] => true
  | JogEv.liveHigh :: t =>
    decide (k + 1 ≤ putBatchSize)
      && (if k + 1 = putBatchSize then nextFairOrEnd t else true)
      && hiRunOk (k + 1) t
  | JogEv.fairSel :: t => hiRunOk 0 t
  | JogEv.liveFair :: t => hiRunOk 0 t
  | JogEv.bgFair :: t => hiRunOk 0 t

/-! ## `XactRespond` — deletion and inbound PUT (claims C8, C10)

`removeObjAndMeta` (responder source, lines 97-119) resolves and removes
the local files of the object in the order metafile, replica, slice; the
first resolution or removal error is returned at once, skipping the
remaining files.  `DispatchReq` (lines 145-168) logs that error and never
fails the request.  `DispatchResp` (lines 170-224) refuses an inbound PUT
without metadata: it drains the payload and writes nothing. -/

/-- The three content types iterated by `removeObjAndMeta` in source order:
`MetaType`, `fs.ObjectType` (the replica), `SliceType`. -/
inductive CT where
  | metaFile
  | objectFile
  | sliceFile
  deriving Repr, DecidableEq

/-- The removal order of removeObjAndMeta (line 108). -/
def removeOrder : List CT := [CT.metaFile, CT.objectFile, CT.sliceFile]

/-- The loop of `removeObjAndMeta` over the remaining content types:
`hrwErr tp` is the error of `cluster.HrwFQN` (path resolution) and
`removeErr tp` that of `os.RemoveAll`, both `none` on success.  Returns
the result and the list of content types whose removal was attempted. -/
def removeLoop (hrwErr removeErr : CT → Option String) :
    List CT → Except String Unit × List CT
  | [] => (Except.ok (), [])
  | tp :: rest =>
    match hrwErr tp with
    | some e => (Except.error e, [])
    | none =>
      match removeErr tp with
      | some e => (Except.error e, [tp])
      | none =>
        let r := removeLoop hrwErr removeErr rest
        (r.1, tp :: r.2)

/-- `XactRespond.removeObjAndMeta` (lines 97-119). -/
def removeObjAndMeta (hrwErr removeErr : CT → Option String) :
    Except String Unit × List CT :=
  removeLoop hrwErr removeErr removeOrder

/-- The `reqDel` case of `XactRespond.DispatchReq` (lines 149-153): the
removal error is only logged (returned here as the third component) and
the request itself always completes without failing. -/
def dispatchReqDel (hrwErr removeErr : CT → Option String) :
    Except String Unit × List CT × Option String :=
  let r := removeObjAndMeta hrwErr removeErr
  match r.1 with
  | Except.error e => (Except.ok (), r.2, some e)
  | Except.ok _ => (Except.ok (), r.2, none)

/-- The request kinds of the intra-cluster EC protocol. -/
inductive ReqAct where
  | reqDel
  | reqGet
  | reqPut
  deriving Repr, DecidableEq

/-- Observable local effects of one `DispatchResp` call: whether the
payload was drained and discarded, whether `WriteSliceAndMeta` or
`WriteReplicaAndMeta` stored content with its metadata sidecar, and the
statistics updates. -/
structure RespEffects where
  drained : Bool
  wroteSliceAndMeta : Bool
  wroteReplicaAndMeta : Bool
  objectsInc : Bool
  bytesAdded : Int
  deriving Repr, DecidableEq

/-- `XactRespond.DispatchResp` (lines 170-224).  `meta` is the metadata of
the intra request (`nil` modelled as `none`); `writeOk` is the combined
outcome of `LomFromHeader` and the write helper; `hdrSize` is
`hdr.ObjAttrs.Size`. -/
def dispatchResp (act : ReqAct) (meta : Option Metadata) (isSlice : Bool)
    (writeOk : Bool) (hdrSize : Int) : RespEffects :=
  match act with
  | ReqAct.reqPut =>
    match meta with
    | none =>
      { drained := true, wroteSliceAndMeta := false, wroteReplicaAndMeta := false
        objectsInc := false, bytesAdded := 0 }
    | some _ =>
      if writeOk then
        { drained := false, wroteSliceAndMeta := isSlice
          wroteReplicaAndMeta := !isSlice, objectsInc := true
          bytesAdded := hdrSize }
      else
        { drained := true, wroteSliceAndMeta := false
          wroteReplicaAndMeta := false, objectsInc := false, bytesAdded := 0 }
  | _ =>
    { drained := false, wroteSliceAndMeta := false, wroteReplicaAndMeta := false
      objectsInc := false, bytesAdded := 0 }

/-! ## Theorems -/

theorem cksumCount_append (l₁ l₂ : List MetaResp) (v : String) :
    cksumCount (l₁ ++ l₂) v = cksumCount l₁ v + cksumCount l₂ v := by
  simp [cksumCount, List.filter_append]

theorem cksumCount_single (r : MetaResp) (v : String) :
    cksumCount [r] v = if r.2.objCksum = v then 1 else 0 := by
  by_cases h : r.2.objCksum = v <;> simp [cksumCount, h]

theorem cksumCount_take_le (l : List MetaResp) (n : Nat) (v : String) :
    cksumCount (l.take n) v ≤ cksumCount l v := by
  unfold cksumCount
  exact ((l.take_sublist n).filter _).length_le

theorem tallyInv_init : TallyInv [] tallyInit := by
  refine ⟨fun v => rfl, fun v => Nat.le_refl _, rfl, fun n v h => ?_⟩
  simpa [cksumCount] using h

theorem take_append_single_of_le {α : Type} (t : List α) (r : α) {n : Nat}
    (h : n ≤ t.length) : (t ++ [r]).take n = t.take n := by
  rw [List.take_append_eq_append_take]
  have : n - t.length = 0 := Nat.sub_eq_zero_of_le h
  simp [this]

theorem take_append_single_of_gt {α : Type} (t : List α) (r : α) {n : Nat}
    (h : t.length < n) : (t ++ [r]).take n = t ++ [r] := by
  apply List.take_of_length_le
  simp
  omega

theorem tallyInv_step (t : List MetaResp) (s : TallyState) (r : MetaResp)
    (inv : TallyInv t s) : TallyInv (t ++ [r]) (tallyStep s r.2.objCksum) := by
  obtain ⟨inv1, inv2, inv3, inv4⟩ := inv
  set m := r.2.objCksum with hm
  have hcount : ∀ v, cksumCount (t ++ [r]) v
      = cksumCount t v + if m = v then 1 else 0 := by
    intro v
    rw [cksumCount_append, cksumCount_single]
  have hcount_m : cksumCount (t ++ [r]) m = cksumCount t m + 1 := by
    simp [hcount]
  have hcount_ne : ∀ v, m ≠ v → cksumCount (t ++ [r]) v = cksumCount t v := by
    intro v hv
    simp [hcount, hv]
  simp only [tallyStep]
  by_cases hgt : s.chk m + 1 > s.chkMax
  · -- the new value strictly exceeds the old maximum: chkVal and chkMax move
    rw [if_pos hgt]
    simp only [TallyInv]
    have hcnt : s.chk m + 1 = cksumCount (t ++ [r]) m := by
      rw [inv1, hcount_m]
    refine ⟨?_, ?_, ?_, ?_⟩
    · intro v
      by_cases hv : v = m
      · subst hv
        simp [hcnt]
      · have : m ≠ v := fun h => hv h.symm
        simp [hv, inv1, hcount_ne _ this]
    · intro v
      by_cases hv : m = v
      · subst hv
        rw [← hcnt]
      · rw [hcount_ne _ hv]
        exact Nat.le_trans (inv2 v) (Nat.le_of_lt hgt)
    · exact hcnt.symm
    · intro n v hv
      rcases le_or_lt n t.length with hn | hn
      · rw [take_append_single_of_le t r hn] at hv ⊢
        exfalso
        have h1 : cksumCount (t.take n) v ≤ cksumCount t v := cksumCount_take_le t n v
        have h2 : cksumCount t v ≤ s.chkMax := inv2 v
        omega
      · rw [take_append_single_of_gt t r hn] at hv ⊢
        by_cases hvm : v = m
        · subst hvm
          exact hv
        · have : m ≠ v := fun h => hvm h.symm
          rw [hcount_ne _ this] at hv
          have h2 : cksumCount t v ≤ s.chkMax := inv2 v
          omega
  · -- the old maximum stands: chkVal and chkMax are unchanged
    rw [if_neg hgt]
    simp only [TallyInv]
    have hvalm : s.chkVal ≠ m := by
      intro h
      have h1 : s.chk m = s.chkMax := by
        rw [inv1 m, ← h]
        exact inv3
      exact hgt (by omega)
    refine ⟨?_, ?_, ?_, ?_⟩
    · intro v
      by_cases hv : v = m
      · subst hv
        simp [inv1, hcount_m]
      · have : m ≠ v := fun h => hv h.symm
        simp [hv, inv1, hcount_ne _ this]
    · intro v
      by_cases hv : m = v
      · subst hv
        rw [hcount_m, ← inv1]
        omega
      · rw [hcount_ne _ hv]
        exact inv2 v
    · rw [hcount_ne _ (fun h => hvalm h.symm)]
      exact inv3
    · intro n v hv
      rcases le_or_lt n t.length with hn | hn
      · rw [take_append_single_of_le t r hn] at hv ⊢
        exact inv4 n v hv
      · rw [take_append_single_of_gt t r hn] at hv ⊢
        rw [hcount_ne _ (fun h => hvalm h.symm)]
        exact inv3

theorem tallyInv_foldl (l : List MetaResp) :
    ∀ (t : List MetaResp) (s : TallyState), TallyInv t s →
    TallyInv (t ++ l) (l.foldl (fun s r => tallyStep s r.2.objCksum) s) := by
  induction l with
  | nil => intro t s h; simpa using h
  | cons a l ih =>
    intro t s h
    have step := tallyInv_step t s a h
    have := ih (t ++ [a]) (tallyStep s a.2.objCksum) step
    simpa using this

theorem requestMetaTally_inv (responses : List MetaResp) :
    TallyInv responses (requestMetaTally responses) := by
  have := tallyInv_foldl responses [] tallyInit tallyInv_init
  simpa [requestMetaTally] using this

/-- C1. `getJogger.requestMeta` selects as authoritative the checksum value
with maximal frequency over the gathered metadata responses (with ties going
to the value that first reached the maximal count: on no prefix of the
arrival order does any value reach the final maximal count before the chosen
value does), and the surviving node set contains exactly the responders
whose metadata carries the chosen value; every disagreeing response is
discarded. -/
theorem requestMeta_majority_filter (responses : List MetaResp) :
    cksumCount responses (requestMetaTally responses).chkVal
        = (requestMetaTally responses).chkMax
    ∧ (∀ v, cksumCount responses v ≤ (requestMetaTally responses).chkMax)
    ∧ (∀ n v, cksumCount (responses.take n) v = (requestMetaTally responses).chkMax →
        cksumCount (responses.take n) (requestMetaTally responses).chkVal
          = (requestMetaTally responses).chkMax)
    ∧ (∀ r, r ∈ requestMetaNodes responses ↔
        r ∈ responses ∧ r.2.objCksum = (requestMetaTally responses).chkVal) := by
  obtain ⟨_, inv2, inv3, inv4⟩ := requestMetaTally_inv responses
  refine ⟨inv3, inv2, inv4, fun r => ?_⟩
  simp [requestMetaNodes, List.mem_filter]

/-- Concrete check of C1 at `sampleResponses`, applying
`requestMeta_majority_filter` with its inner hypotheses discharged: on the
length-3 prefix the chosen value has already reached the maximal count, and
a disagreeing response is discarded from the surviving set. -/
theorem requestMeta_majority_filter_witness :
    cksumCount (sampleResponses.take 3) (requestMetaTally sampleResponses).chkVal
        = (requestMetaTally sampleResponses).chkMax
    ∧ ("n1", { Metadata.zero with objCksum := "a" }) ∉ requestMetaNodes sampleResponses := by
  have h := requestMeta_majority_filter sampleResponses
  refine ⟨h.2.2.1 3 "b" (by decide), fun hmem => ?_⟩
  have := (h.2.2.2 _).mp hmem
  have hval : (requestMetaTally sampleResponses).chkVal = "b" := by decide
  rw [hval] at this
  exact absurd this.2 (by decide)


/-- C2. When the authoritative metadata is not a copy and fewer than
`meta.Data` nodes survived the majority filter, `getJogger.restore` fails
with the insufficient-slices error and performs no local effect: no slice
is requested, no writer registered, no replica or metadata file written —
whatever the (never invoked) sub-runs would do. -/
theorem restore_insufficient_slices (meta : Metadata) (nodes : List MetaResp)
    (toDisk : Bool) (rd rm er : RestoreRun)
    (hcopy : meta.isCopy = false) (hlt : nodes.length < meta.data) :
    restore true (Except.ok (meta, nodes)) toDisk rd rm er
      = (Except.error (RestoreErr.insufficientSlices meta.data nodes.length), []) := by
  simp [restore, hcopy, hlt]

/-- Concrete check of C2: two data slices required, one surviving node. -/
theorem restore_insufficient_slices_witness :
    restore true (Except.ok ({ Metadata.zero with data := 2 }, [("n1", Metadata.zero)]))
        false (Except.ok (), [RestoreEffect.writeReplica]) (Except.ok (), []) (Except.ok (), [])
      = (Except.error (RestoreErr.insufficientSlices 2 1), []) :=
  restore_insufficient_slices _ _ _ _ _ _ (by decide) (by decide)

/-- C3. `putJogger.encode` fails with the insufficient-targets error — with
an empty effect trace, hence before the metadata sidecar write and before
any copy or slice dispatch — when the cluster map holds fewer than
`parity+1` targets on the replicated path, or fewer than `data+parity+1`
targets on the erasure-coded path. -/
theorem encode_insufficient_targets (dataSlices paritySlices targetCnt : Nat)
    (metaWriteOk : Bool) (copiesRun slicesRun : PutRun) :
    (targetCnt < paritySlices + 1 →
      encode true dataSlices paritySlices targetCnt metaWriteOk copiesRun slicesRun
        = (Except.error (PutErr.insufficientTargets (paritySlices + 1) targetCnt), []))
    ∧ (targetCnt < dataSlices + paritySlices + 1 →
      encode false dataSlices paritySlices targetCnt metaWriteOk copiesRun slicesRun
        = (Except.error
            (PutErr.insufficientTargets (paritySlices + 1 + dataSlices) targetCnt), [])) := by
  constructor
  · intro h
    simp [encode, h]
  · intro h
    have h1 : targetCnt < paritySlices + 1 + dataSlices := by omega
    simp [encode, h1]

/-- Concrete check of C3: a 3-target cluster cannot hold a 2+2 encoding. -/
theorem encode_insufficient_targets_witness :
    encode false 2 2 3 true (Except.ok (), []) (Except.ok (), [])
      = (Except.error (PutErr.insufficientTargets 5 3), []) :=
  (encode_insufficient_targets 2 2 3 true (Except.ok (), []) (Except.ok (), [])).2
    (by decide)

theorem head_meta_before_send (l : List PutEffect) :
    ∀ n (h : n < (PutEffect.writeMetafile :: l).length),
      PutEffect.isSend ((PutEffect.writeMetafile :: l).get ⟨n, h⟩) = true →
      ∃ m, ∃ hm : m < (PutEffect.writeMetafile :: l).length,
        m < n ∧ (PutEffect.writeMetafile :: l).get ⟨m, hm⟩ = PutEffect.writeMetafile := by
  intro n h hsend
  match n with
  | 0 => exact absurd hsend (by simp [List.get, PutEffect.isSend])
  | Nat.succ n => exact ⟨0, Nat.succ_pos _, Nat.succ_pos n, rfl⟩

/-- C6. In every encode (replicated or erasure-coded) trace, any dispatch
of a replica copy or of a slice to a peer is preceded by the write of the
local metadata sidecar of the main replica. -/
theorem encode_meta_before_dispatch (isCopy : Bool) (dataSlices paritySlices targetCnt : Nat)
    (metaWriteOk : Bool) (copiesRun slicesRun : PutRun) :
    ∀ n (h : n < (encode isCopy dataSlices paritySlices targetCnt metaWriteOk
          copiesRun slicesRun).2.length),
      PutEffect.isSend ((encode isCopy dataSlices paritySlices targetCnt metaWriteOk
          copiesRun slicesRun).2.get ⟨n, h⟩) = true →
      ∃ m, ∃ hm : m < (encode isCopy dataSlices paritySlices targetCnt metaWriteOk
          copiesRun slicesRun).2.length,
        m < n ∧ (encode isCopy dataSlices paritySlices targetCnt metaWriteOk
          copiesRun slicesRun).2.get ⟨m, hm⟩ = PutEffect.writeMetafile := by
  have hshape : (encode isCopy dataSlices paritySlices targetCnt metaWriteOk
        copiesRun slicesRun).2 = []
      ∨ ∃ rest, (encode isCopy dataSlices paritySlices targetCnt metaWriteOk
              copiesRun slicesRun).2
          = PutEffect.writeMetafile :: rest := by
    obtain ⟨cres, ctr⟩ := copiesRun
    obtain ⟨sres, str⟩ := slicesRun
    simp only [encode]
    by_cases h1 : targetCnt < paritySlices + 1 + (if isCopy = true then 0 else dataSlices)
    · rw [if_pos h1]
      exact Or.inl rfl
    · rw [if_neg h1]
      by_cases h2 : metaWriteOk = false
      · rw [if_pos h2]
        exact Or.inl rfl
      · rw [if_neg h2]
        cases isCopy
        · rw [if_neg (by simp)]
          cases sres <;> exact Or.inr ⟨_, rfl⟩
        · rw [if_pos rfl]
          cases cres <;> exact Or.inr ⟨_, rfl⟩
  rcases hshape with h0 | ⟨rest, hrest⟩
  · intro n h
    rw [h0] at h
    exact absurd h (by simp)
  · rw [hrest]
    exact head_meta_before_send rest

/-- Concrete check of C6: in the trace of a successful 1+1 encode that then
sends a slice, the sidecar write (index 0) precedes the send (index 1). -/
theorem encode_meta_before_dispatch_witness :
    ∃ m, ∃ hm : m < (encode false 1 1 3 true (Except.ok (), [])
        (Except.ok (), [PutEffect.sendSlice "t2" 1])).2.length,
      m < 1 ∧ (encode false 1 1 3 true (Except.ok (), [])
        (Except.ok (), [PutEffect.sendSlice "t2" 1])).2.get ⟨m, hm⟩
          = PutEffect.writeMetafile :=
  encode_meta_before_dispatch false 1 1 3 true (Except.ok (), [])
    (Except.ok (), [PutEffect.sendSlice "t2" 1]) 1 (by decide) (by decide)

/-- C8 counterexample: when removing the metafile fails, `removeObjAndMeta`
returns at once — the replica and slice files are never attempted, refuting
the claim that removal continues with the remaining files after a per-file
error. -/
theorem removeObjAndMeta_stops_counterexample :
    (removeObjAndMeta (fun _ => none)
        (fun tp => if tp = CT.metaFile then some "remove failure" else none)).2
      = [CT.metaFile]
    ∧ CT.objectFile ∉ (removeObjAndMeta (fun _ => none)
        (fun tp => if tp = CT.metaFile then some "remove failure" else none)).2 := by
  decide

/-- C8 (amended). The DEL responder removes local files in the order
metafile, replica, slice; the attempts form a prefix of that order and
cover all three files when nothing fails, the first error stops the
remaining removals and is logged once by the dispatcher, and the request
itself never fails. -/
theorem dispatchReqDel_best_effort (hrwErr removeErr : CT → Option String) :
    (dispatchReqDel hrwErr removeErr).1 = Except.ok ()
    ∧ (∃ n, (removeObjAndMeta hrwErr removeErr).2 = removeOrder.take n)
    ∧ ((∀ tp, hrwErr tp = none ∧ removeErr tp = none) →
        (removeObjAndMeta hrwErr removeErr).2 = removeOrder)
    ∧ ((dispatchReqDel hrwErr removeErr).2.2 = none ↔
        (removeObjAndMeta hrwErr removeErr).1 = Except.ok ()) := by
  refine ⟨?_, ?_, ?_, ?_⟩
  · unfold dispatchReqDel
    cases h : (removeObjAndMeta hrwErr removeErr).1 <;> simp [h]
  · cases h1 : hrwErr CT.metaFile
    case some e => exact ⟨0, by simp [removeObjAndMeta, removeOrder, removeLoop, h1]⟩
    case none =>
    cases h2 : removeErr CT.metaFile
    case some e => exact ⟨1, by simp [removeObjAndMeta, removeOrder, removeLoop, h1, h2]⟩
    case none =>
    cases h3 : hrwErr CT.objectFile
    case some e => exact ⟨1, by simp [removeObjAndMeta, removeOrder, removeLoop, h1, h2, h3]⟩
    case none =>
    cases h4 : removeErr CT.objectFile
    case some e => exact ⟨2, by simp [removeObjAndMeta, removeOrder, removeLoop, h1, h2, h3, h4]⟩
    case none =>
    cases h5 : hrwErr CT.sliceFile
    case some e => exact ⟨2, by simp [removeObjAndMeta, removeOrder, removeLoop, h1, h2, h3, h4, h5]⟩
    case none =>
    cases h6 : removeErr CT.sliceFile
    case some e => exact ⟨3, by simp [removeObjAndMeta, removeOrder, removeLoop, h1, h2, h3, h4, h5, h6]⟩
    case none => exact ⟨3, by simp [removeObjAndMeta, removeOrder, removeLoop, h1, h2, h3, h4, h5, h6]⟩
  · intro h
    simp [removeObjAndMeta, removeOrder, removeLoop,
      (h CT.metaFile).1, (h CT.metaFile).2, (h CT.objectFile).1, (h CT.objectFile).2,
      (h CT.sliceFile).1, (h CT.sliceFile).2]
  · unfold dispatchReqDel
    cases h : (removeObjAndMeta hrwErr removeErr).1 <;> simp [h]

/-- Concrete check of C8 (amended): with no failures all three files are
removed, in the order metafile, replica, slice. -/
theorem dispatchReqDel_best_effort_witness :
    (removeObjAndMeta (fun _ => none) (fun _ => none)).2 = removeOrder :=
  (dispatchReqDel_best_effort (fun _ => none) (fun _ => none)).2.2.1
    (fun _ => ⟨rfl, rfl⟩)

theorem foldl_eq_foldl_filter {α β : Type} (f : β → α → β) (p : α → Bool)
    (hid : ∀ st x, p x = false → f st x = st) :
    ∀ (l : List α) (init : β), l.foldl f init = (l.filter p).foldl f init := by
  intro l
  induction l with
  | nil => intro init; rfl
  | cons a t ih =>
    intro init
    by_cases hp : p a
    · simp only [List.filter, hp, List.foldl]
      exact ih (f init a)
    · have hfa : p a = false := by simpa using hp
      simp only [List.filter, hfa, List.foldl]
      rw [hid init a hfa]
      exact ih init

theorem requestSlicesFold_slices_length (sliceCnt : Nat) (regOk : String → Bool)
    (nodes : List MetaResp) :
    ∀ st : SliceReqState,
      (nodes.foldl (requestSlicesStep sliceCnt regOk) st).slices.length
        = st.slices.length := by
  induction nodes with
  | nil => intro st; rfl
  | cons a t ih =>
    intro st
    rw [List.foldl_cons, ih]
    simp only [requestSlicesStep]
    split
    · rfl
    · simp

/-- C9. In the slice-request loop of `getJogger.requestSlices`, a responder
whose metadata carries a slice id outside `1..sliceCnt` is skipped — the
loop state is exactly the state of the loop run on the valid responses
only, so no writer is stored or registered for it — and for every kept
response the slice-array access uses index `sliceID - 1`, which lies within
the bounds of the `sliceCnt`-sized array. -/
theorem requestSlices_skips_invalid (sliceCnt : Nat) (regOk : String → Bool)
    (nodes : List MetaResp) :
    requestSlicesFold sliceCnt regOk nodes
      = requestSlicesFold sliceCnt regOk (nodes.filter (validSliceResp sliceCnt))
    ∧ (requestSlicesFold sliceCnt regOk nodes).slices.length = sliceCnt
    ∧ (∀ r ∈ nodes, validSliceResp sliceCnt r = true →
        1 ≤ r.2.sliceID ∧ (r.2.sliceID - 1).toNat < sliceCnt) := by
  refine ⟨?_, ?_, ?_⟩
  · unfold requestSlicesFold
    apply foldl_eq_foldl_filter
    intro st x hx
    have hcond : x.2.sliceID < 1 ∨ x.2.sliceID > (sliceCnt : Int) := by
      have himp := hx
      simp [validSliceResp] at himp
      by_cases hz : x.2.sliceID < 1
      · exact Or.inl hz
      · exact Or.inr (himp (by omega))
    simp only [requestSlicesStep]
    rw [if_pos hcond]
  · unfold requestSlicesFold
    rw [requestSlicesFold_slices_length]
    simp
  · intro r hr hv
    have hnot : ¬(r.2.sliceID < 1 ∨ r.2.sliceID > (sliceCnt : Int)) := by
      simpa [validSliceResp] using hv
    push_neg at hnot
    exact ⟨hnot.1, by omega⟩

/-- Concrete check of C9: a response with slice id 2 out of 3 slots is kept
and accesses index 1 of the array. -/
theorem requestSlices_skips_invalid_witness :
    1 ≤ (("n1", { Metadata.zero with sliceID := 2 }) : MetaResp).2.sliceID
    ∧ ((("n1", { Metadata.zero with sliceID := 2 }) : MetaResp).2.sliceID - 1).toNat < 3 :=
  (requestSlices_skips_invalid 3 (fun _ => true)
      [("n1", { Metadata.zero with sliceID := 2 })]).2.2
    ("n1", { Metadata.zero with sliceID := 2 }) (by simp) (by decide)

/-- C10. An inbound PUT whose request carries no metadata is refused by
`XactRespond.DispatchResp`: the payload is drained and discarded, neither
slice nor replica content (nor a metadata sidecar) is written, and the
objects/bytes statistics are not incremented. -/
theorem dispatchResp_no_meta (isSlice writeOk : Bool) (hdrSize : Int) :
    dispatchResp ReqAct.reqPut none isSlice writeOk hdrSize
      = { drained := true, wroteSliceAndMeta := false, wroteReplicaAndMeta := false
          objectsInc := false, bytesAdded := 0 } := rfl

theorem getD_map_range {α : Type} (f : Nat → α) (n j : Nat) (dflt : α) (h : j < n) :
    ((List.range n).map f).getD j dflt = f j := by
  rw [List.getD_eq_getElem?_getD, List.getElem?_map, List.getElem?_range h]
  rfl

theorem sendSlicesSends_getD (meta : Metadata) (dataSlices paritySlices : Nat)
    (targets : List String) (version : String)
    (sliceCksum : Nat → Option (String × String))
    (hlen : targets.length = dataSlices + paritySlices + 1) :
    ∀ j, j < dataSlices + paritySlices →
      (sendSlicesSends meta dataSlices paritySlices targets version sliceCksum).getD
          j default
        = { target := targets.getD (j + 1) ""
            md :=
              match sliceCksum j with
              | some ct =>
                { meta with sliceID := (j : Int) + 1, objVersion := version
                            cksumType := ct.1, cksumValue := ct.2 }
              | none => { meta with sliceID := (j : Int) + 1, objVersion := version }
            isSlice := true } := by
  intro j hj
  have hcnt : min (paritySlices + dataSlices) (targets.length - 1)
      = dataSlices + paritySlices := by omega
  simp only [sendSlicesSends]
  rw [hcnt, getD_map_range _ _ _ _ hj]
  rw [if_pos (show ((j : Int) + 1 ≠ 0) by omega)]

/-- C4. For a successful erasure-coded PUT (placement list of length
`data+parity+1` over distinct targets), `sendSlices` produces exactly
`data+parity` sends; the send of slice `i` (for `1 ≤ i ≤ data+parity`)
goes to target `i` of the placement list with a cloned metadata whose
`SliceID` is `i` and whose checksum fields are the per-slice checksum when
one was computed; and the main replica is not sent to any peer — no send
goes to the main target (slot 0) and no send carries `SliceID` 0. -/
theorem sendSlices_placement (meta : Metadata) (dataSlices paritySlices : Nat)
    (targets : List String) (version : String)
    (sliceCksum : Nat → Option (String × String))
    (hlen : targets.length = dataSlices + paritySlices + 1)
    (hnodup : targets.Nodup) :
    (sendSlicesSends meta dataSlices paritySlices targets version sliceCksum).length
        = dataSlices + paritySlices
    ∧ (∀ i, 1 ≤ i → i ≤ dataSlices + paritySlices →
        ((sendSlicesSends meta dataSlices paritySlices targets version sliceCksum).getD
            (i - 1) default).target = targets.getD i ""
        ∧ ((sendSlicesSends meta dataSlices paritySlices targets version sliceCksum).getD
            (i - 1) default).md.sliceID = (i : Int)
        ∧ ((sendSlicesSends meta dataSlices paritySlices targets version sliceCksum).getD
            (i - 1) default).isSlice = true
        ∧ ∀ ct, sliceCksum (i - 1) = some ct →
            ((sendSlicesSends meta dataSlices paritySlices targets version sliceCksum).getD
                (i - 1) default).md.cksumType = ct.1
            ∧ ((sendSlicesSends meta dataSlices paritySlices targets version
                sliceCksum).getD (i - 1) default).md.cksumValue = ct.2)
    ∧ (∀ j, j < dataSlices + paritySlices →
        ((sendSlicesSends meta dataSlices paritySlices targets version sliceCksum).getD
            j default).target ≠ targets.getD 0 ""
        ∧ ((sendSlicesSends meta dataSlices paritySlices targets version sliceCksum).getD
            j default).md.sliceID ≠ 0) := by
  have hcnt : min (paritySlices + dataSlices) (targets.length - 1)
      = dataSlices + paritySlices := by omega
  refine ⟨?_, ?_, ?_⟩
  · simp [sendSlicesSends, hcnt]
  · intro i h1 h2
    rw [sendSlicesSends_getD meta dataSlices paritySlices targets version sliceCksum
      hlen (i - 1) (by omega)]
    have hi1 : i - 1 + 1 = i := by omega
    refine ⟨by rw [hi1], ?_, rfl, ?_⟩
    · cases hcr : sliceCksum (i - 1) <;> simp [hcr] <;> omega
    · intro ct hct
      simp [hct]
  · intro j hj
    rw [sendSlicesSends_getD meta dataSlices paritySlices targets version sliceCksum
      hlen j hj]
    constructor
    · have hj1 : j + 1 < targets.length := by omega
      have h0 : 0 < targets.length := by omega
      dsimp
      rw [List.getD_eq_getElem targets "" hj1, List.getD_eq_getElem targets "" h0]
      intro he
      have := (List.Nodup.getElem_inj_iff hnodup).mp he
      omega
    · cases hcr : sliceCksum j <;> simp [hcr] <;> omega

/-- Concrete check of C4: with a 1+1 encoding over three distinct targets,
slice 2 goes to target 2 with `SliceID` 2 and the computed slice checksum. -/
theorem sendSlices_placement_witness :
    ((sendSlicesSends Metadata.zero 1 1 ["t0", "t1", "t2"] "v"
        (fun _ => some ("cty", "cval"))).getD 1 default).target
      = ["t0", "t1", "t2"].getD 2 ""
    ∧ ((sendSlicesSends Metadata.zero 1 1 ["t0", "t1", "t2"] "v"
        (fun _ => some ("cty", "cval"))).getD 1 default).md.sliceID = (2 : Int)
    ∧ ((sendSlicesSends Metadata.zero 1 1 ["t0", "t1", "t2"] "v"
        (fun _ => some ("cty", "cval"))).getD 1 default).md.cksumValue = "cval" := by
  have h := sendSlices_placement Metadata.zero 1 1 ["t0", "t1", "t2"] "v"
    (fun _ => some ("cty", "cval")) (by decide) (by decide)
  have h2 := h.2.1 2 (by decide) (by decide)
  exact ⟨h2.1, h2.2.1, (h2.2.2.2 ("cty", "cval") rfl).2⟩

theorem runLoop_fair_head (pd : Nat) (s1 : List Sel1) (s2 : List Sel2) :
    ∃ t, runLoop pd true s1 s2 = JogEv.fairSel :: t := by
  cases s2 with
  | nil => exact ⟨[], by simp [runLoop]⟩
  | cons h2 t2 =>
    cases h2 with
    | put => exact ⟨JogEv.liveFair :: runLoop 0 false s1 t2, by simp [runLoop]⟩
    | xact => exact ⟨JogEv.bgFair :: runLoop 0 false s1 t2, by simp [runLoop]⟩
    | stop => exact ⟨[], by simp [runLoop]⟩

theorem hiRunOk_runLoop (pd : Nat) (fair : Bool) (s1 : List Sel1) (s2 : List Sel2) :
    ∀ k, (fair = false → k = pd ∧ pd < putBatchSize) →
      hiRunOk k (runLoop pd fair s1 s2) = true := by
  induction pd, fair, s1, s2 using runLoop.induct with
  | case1 pd s2 =>
    intro k hk
    simp [runLoop, hiRunOk]
  | case2 pd t1 s2 hlt ih =>
    intro k hk
    obtain ⟨hkpd, hpd⟩ := hk rfl
    subst hkpd
    simp only [runLoop, if_pos hlt]
    simp only [hiRunOk]
    have hle : decide (k + 1 ≤ putBatchSize) = true := by
      simp [putBatchSize]
      simp [putBatchSize] at hlt
      omega
    have hne : k + 1 = putBatchSize → False := by
      intro he
      simp [putBatchSize] at hlt he
      omega
    rw [hle, if_neg hne]
    simpa using ih (k + 1) (fun _ => ⟨rfl, by omega⟩)
  | case3 pd t1 s2 hge ih =>
    intro k hk
    obtain ⟨hkpd, hpd⟩ := hk rfl
    subst hkpd
    simp only [runLoop, if_neg hge]
    simp only [hiRunOk]
    obtain ⟨t0, ht0⟩ := runLoop_fair_head 0 t1 s2
    have heq : k + 1 = putBatchSize := by
      simp [putBatchSize] at hge hpd ⊢
      omega
    rw [if_pos heq, ht0]
    simp only [nextFairOrEnd]
    have := ih (k + 1) (by intro h; cases h)
    rw [ht0] at this
    simp only [hiRunOk] at this ⊢
    simp [this]
    omega
  | case4 pd t1 s2 =>
    intro k hk
    simp [runLoop, hiRunOk]
  | case5 pd t1 s2 ih =>
    intro k hk
    simp only [runLoop]
    obtain ⟨t0, ht0⟩ := runLoop_fair_head 0 t1 s2
    have := ih k (by intro h; cases h)
    exact this
  | case6 pd s1 =>
    intro k hk
    simp [runLoop, hiRunOk]
  | case7 pd s1 t2 ih =>
    intro k hk
    simp only [runLoop, hiRunOk]
    exact ih 0 (fun _ => ⟨rfl, by simp [putBatchSize]⟩)
  | case8 pd s1 t2 ih =>
    intro k hk
    simp only [runLoop, hiRunOk]
    exact ih 0 (fun _ => ⟨rfl, by simp [putBatchSize]⟩)
  | case9 pd s1 t2 =>
    intro k hk
    simp [runLoop, hiRunOk]

/-- C7. In every execution of the run loop of `putJogger` — whatever the
two oracle streams deliver — at most `putBatchSize = 8` high-priority PUT
requests are processed consecutively, and a run that reaches 8 is
immediately followed by the fair selection step at which the background
ec-encode queue is eligible to be serviced. -/
theorem run_fairness (s1 : List Sel1) (s2 : List Sel2) :
    putBatchSize = 8 ∧ hiRunOk 0 (runLoop 0 false s1 s2) = true :=
  ⟨rfl, hiRunOk_runLoop 0 false s1 s2 0 (fun _ => ⟨rfl, by simp [putBatchSize]⟩)⟩

theorem sliceSize_toNat (S d : Nat) :
    (SliceSize (S : Int) d).toNat = (S + d - 1) / d := by
  simp only [SliceSize, Int.toNat_natCast]

theorem sliceSize_mul_ge (S d : Nat) (hd : 1 ≤ d) :
    S ≤ d * ((S + d - 1) / d) := by
  have heq := Nat.div_add_mod (S + d - 1) d
  have hr : (S + d - 1) % d < d := Nat.mod_lt _ (by omega)
  set q := (S + d - 1) / d with hq
  set r := (S + d - 1) % d with hrdef
  set p := d * q with hp
  omega

/-- C5 counterexample: a 1-byte object encoded with 3 data slices has
`slice_size = 1`, yet the section reader of data slice 1 yields 2 bytes
(`sizeLeft = 0` real bytes plus `padSize = 2` zeros), refuting the claim
that every data-slice reader yields exactly `slice_size` bytes. -/
theorem initializeSlices_padding_counterexample :
    (sectionBytes [7] ((initializeReaders 1 3).getD 1 default)).length
      ≠ (SliceSize 1 3).toNat := by decide

/-- C5 (amended).  For an object of `fileSize = content.length` bytes
encoded with `d` data slices and `slice_size = K = ⌈fileSize/d⌉`, and
provided `(d-1)·K ≤ fileSize` (every data slice except possibly the last
starts within the file — forced by the counterexample above), the reader
of data slice `i` is a section handle at offset `i·K` whose byte sequence
is exactly the window `[i·K, (i+1)·K)` of the replica, zero-padded at the
tail, and yields exactly `K` bytes. -/
theorem initializeSlices_readers (content : List Nat) (d K : Nat)
    (hd : 1 ≤ d)
    (hK : K = (SliceSize (content.length : Int) d).toNat)
    (hbig : (d - 1) * K ≤ content.length) :
    ∀ i, i < d →
      ((initializeReaders (content.length : Int) d).getD i default).offset
          = (i : Int) * (K : Int)
      ∧ sectionBytes content
            ((initializeReaders (content.length : Int) d).getD i default)
          = (content.drop (i * K)).take K
              ++ List.replicate (K - (content.length - i * K)) 0
      ∧ (sectionBytes content
            ((initializeReaders (content.length : Int) d).getD i default)).length
          = K := by
  intro i hi
  set S := content.length with hS
  have hk : SliceSize (S : Int) d = (K : Int) := by
    rw [hK]
    simp only [SliceSize, Int.toNat_natCast]
  have hceil : S ≤ d * K := by
    have h1 := sliceSize_mul_ge S d hd
    have h2 : K = (S + d - 1) / d := by rw [hK, sliceSize_toNat]
    rw [h2]
    exact h1
  have hrd : (initializeReaders (S : Int) d).getD i default
      = dataReaderSpec (S : Int) (K : Int) ((K : Int) * d - S) i := by
    simp only [initializeReaders]
    rw [hk]
    exact getD_map_range _ _ _ _ hi
  rw [hrd]
  have hiK_S : i * K ≤ S := by
    have h1 : i * K ≤ (d - 1) * K := Nat.mul_le_mul_right K (by omega)
    omega
  have hlen_drop : (content.drop (i * K)).length = S - i * K := by
    rw [List.length_drop]
  by_cases hfull : i * K + K ≤ S
  · -- the slice lies fully inside the file: a plain section, no padding
    have hcond : ¬((S : Int) - (i : Int) * (K : Int) < (K : Int)) := by omega
    simp only [dataReaderSpec]
    rw [if_neg hcond]
    have h1 : ((i : Int) * (K : Int)).toNat = i * K := by omega
    have h2 : ((K : Int)).toNat = K := by omega
    refine ⟨rfl, ?_, ?_⟩
    · simp only [sectionBytes]
      rw [h1, h2]
      have h3 : K - (S - i * K) = 0 := by omega
      rw [h3]
      simp
    · simp only [sectionBytes]
      rw [h1, h2]
      rw [List.length_append, List.length_take, hlen_drop]
      simp
      omega
  · -- the final, zero-padded slice
    have hS_lt : S < i * K + K := by omega
    have hKpos : 0 < K := by
      rcases Nat.eq_zero_or_pos K with h0 | h0
      · rw [h0] at hS_lt
        simp at hS_lt
      · exact h0
    have hieq : i = d - 1 := by
      have h2 : (i + 1) * K = i * K + K := Nat.succ_mul i K
      have h1 : (d - 1) * K < (i + 1) * K := by omega
      have h3 : d - 1 < i + 1 := Nat.lt_of_mul_lt_mul_right h1
      omega
    have hiK : i * K = (d - 1) * K := by rw [hieq]
    have hdm : d * K = (d - 1) * K + K := by
      have h4 : ((d - 1) + 1) * K = (d - 1) * K + K := Nat.succ_mul (d - 1) K
      have h5 : (d - 1) + 1 = d := by omega
      rw [h5] at h4
      exact h4
    have hmul : K * d = d * K := Nat.mul_comm K d
    have hcond : (S : Int) - (i : Int) * (K : Int) < (K : Int) := by omega
    simp only [dataReaderSpec]
    rw [if_pos hcond]
    have h1 : ((i : Int) * (K : Int)).toNat = i * K := by omega
    have h2 : ((S : Int) - (i : Int) * (K : Int)).toNat = S - i * K := by omega
    have h3 : ((K : Int) * (d : Int) - (S : Int)).toNat = K * d - S := by omega
    refine ⟨rfl, ?_, ?_⟩
    · simp only [sectionBytes]
      rw [h1, h2, h3]
      have e1 : (content.drop (i * K)).take (S - i * K) = content.drop (i * K) := by
        apply List.take_of_length_le
        rw [hlen_drop]
      have e2 : (content.drop (i * K)).take K = content.drop (i * K) := by
        apply List.take_of_length_le
        rw [hlen_drop]
        omega
      have e3 : K * d - S = K - (S - i * K) := by omega
      rw [e1, e2, e3]
    · simp only [sectionBytes]
      rw [h1, h2, h3]
      rw [List.length_append, List.length_take, hlen_drop, List.length_replicate]
      omega

/-- Concrete check of C5 (amended): 3 bytes over 2 data slices, `K = 2`;
slice 1 covers bytes 2..3 of the file and is padded with one zero to
exactly 2 bytes. -/
theorem initializeSlices_readers_witness :
    sectionBytes [10, 20, 30] ((initializeReaders 3 2).getD 1 default)
        = ([10, 20, 30].drop 2).take 2 ++ List.replicate (2 - (3 - 2)) 0
    ∧ (sectionBytes [10, 20, 30] ((initializeReaders 3 2).getD 1 default)).length = 2 := by
  have h := initializeSlices_readers [10, 20, 30] 2 2 (by decide) (by decide) (by decide)
    1 (by decide)
  exact ⟨h.2.1, h.2.2⟩

end AIStoreEC
